import Mathlib

/-!
Verification development for the pylogback repository.

The definitions below are a shallow embedding of `src/handlers.py` and
`src/policies.py`:

* pure computations of the Python code become Lean functions;
* the mutable objects (`TimeBasedRollingPolicy`, `SizeBasedTriggeringPolicy`,
  `BaseLogbackHandler`) become structures, and their methods become functions
  returning the updated structure;
* the file system is an explicit value (a list of files with path, content and
  modification time); `os` operations act on it;
* wall-clock time (`time.time()`, `datetime.now()`) is passed in as a
  parameter (`now : Rat`, `today : String`);
* operations that can fail with `OSError` take a Boolean oracle telling
  whether the underlying OS call succeeds, and Python exceptions are modelled
  with `Except`;
* byte strings are modelled as `String` with `String.utf8ByteSize` playing the
  role of `len(msg.encode(...))`, and gzip compression is abstracted to the
  identity on contents (only names and existence of files matter here).
-/

namespace Pylogback

/-! ## Decimal rendering of naturals

Python f-strings render integers in decimal, most significant digit first.
The auxiliary function is structurally recursive on a fuel argument so that
the kernel can evaluate it on concrete inputs.
-/

/-- The character for a single decimal digit. -/
def digitChar (d : Nat) : Char := Char.ofNat (48 + d)

/-- Decimal digits of `n`, most significant first, with `fuel ≥ n`. -/
def natDecimalAux : Nat → Nat → List Char
  | 0, _ => []
  | fuel + 1, n =>
    if n = 0 then [] else natDecimalAux fuel (n / 10) ++ [digitChar (n % 10)]

/-- Decimal rendering of a natural number, as a Python f-string renders it. -/
def natDecimal (n : Nat) : String :=
  if n = 0 then "0" else ⟨natDecimalAux n n⟩

theorem natDecimalAux_eq (fuel : Nat) :
    ∀ n, n ≤ fuel → natDecimalAux fuel n = ((Nat.digits 10 n).map digitChar).reverse := by
  induction fuel with
  | zero =>
    intro n hn
    interval_cases n
    simp [natDecimalAux]
  | succ fuel ih =>
    intro n hn
    by_cases h0 : n = 0
    · subst h0; simp [natDecimalAux]
    · have hpos : 0 < n := Nat.pos_of_ne_zero h0
      have hdiv : n / 10 ≤ fuel := by
        have : n / 10 < n := Nat.div_lt_self hpos (by norm_num)
        omega
      rw [Nat.digits_def' (by norm_num : 1 < 10) hpos]
      simp only [natDecimalAux, if_neg h0, ih (n / 10) hdiv, List.map_cons,
        List.reverse_cons]

theorem digitChar_inj : ∀ a, a < 10 → ∀ b, b < 10 → digitChar a = digitChar b → a = b := by
  decide

theorem map_digitChar_inj :
    ∀ l₁ l₂ : List Nat, (∀ x ∈ l₁, x < 10) → (∀ x ∈ l₂, x < 10) →
      l₁.map digitChar = l₂.map digitChar → l₁ = l₂ := by
  intro l₁
  induction l₁ with
  | nil => intro l₂ _ _ h; cases l₂ <;> simp_all
  | cons a t ih =>
    intro l₂ h₁ h₂ h
    cases l₂ with
    | nil => simp at h
    | cons b t₂ =>
      simp only [List.map_cons, List.cons.injEq] at h
      have ha : a < 10 := h₁ a (by simp)
      have hb : b < 10 := h₂ b (by simp)
      have hab : a = b := digitChar_inj a ha b hb h.1
      have ht : t = t₂ := ih t₂ (fun x hx => h₁ x (by simp [hx]))
        (fun x hx => h₂ x (by simp [hx])) h.2
      rw [hab, ht]

theorem natDecimal_inj : ∀ m n : Nat, natDecimal m = natDecimal n → m = n := by
  have key : ∀ k : Nat, natDecimal k =
      if k = 0 then "0" else ⟨((Nat.digits 10 k).map digitChar).reverse⟩ := by
    intro k
    unfold natDecimal
    by_cases hk : k = 0
    · simp [hk]
    · rw [if_neg hk, if_neg hk, natDecimalAux_eq k k le_rfl]
  intro m n h
  rw [key, key] at h
  by_cases hm : m = 0 <;> by_cases hn : n = 0
  · omega
  · exfalso
    rw [if_pos hm, if_neg hn] at h
    have hdata : ("0" : String).data = ((Nat.digits 10 n).map digitChar).reverse :=
      congrArg String.data h
    have : (Nat.digits 10 n).map digitChar = [digitChar 0] := by
      have := congrArg List.reverse hdata
      simpa [digitChar] using this.symm
    have hd : Nat.digits 10 n = [0] := by
      cases hds : Nat.digits 10 n with
      | nil => rw [hds] at this; simp at this
      | cons d rest =>
        rw [hds] at this
        cases rest with
        | nil =>
          simp only [List.map_cons, List.map_nil, List.cons.injEq, and_true] at this
          have hd10 : d < 10 := Nat.digits_lt_base (by norm_num) (by rw [hds]; simp)
          have : d = 0 := digitChar_inj d hd10 0 (by norm_num) this
          rw [this]
        | cons e rest₂ => simp at this
    have := Nat.ofDigits_digits 10 n
    rw [hd] at this
    simp [Nat.ofDigits] at this
    omega
  · exfalso
    rw [if_neg hm, if_pos hn] at h
    have hdata : ((Nat.digits 10 m).map digitChar).reverse = ("0" : String).data :=
      congrArg String.data h
    have : (Nat.digits 10 m).map digitChar = [digitChar 0] := by
      have := congrArg List.reverse hdata
      simpa [digitChar] using this
    have hd : Nat.digits 10 m = [0] := by
      cases hds : Nat.digits 10 m with
      | nil => rw [hds] at this; simp at this
      | cons d rest =>
        rw [hds] at this
        cases rest with
        | nil =>
          simp only [List.map_cons, List.map_nil, List.cons.injEq, and_true] at this
          have hd10 : d < 10 := Nat.digits_lt_base (by norm_num) (by rw [hds]; simp)
          have : d = 0 := digitChar_inj d hd10 0 (by norm_num) this
          rw [this]
        | cons e rest₂ => simp at this
    have := Nat.ofDigits_digits 10 m
    rw [hd] at this
    simp [Nat.ofDigits] at this
    omega
  · rw [if_neg hm, if_neg hn] at h
    have hdata : ((Nat.digits 10 m).map digitChar).reverse =
        ((Nat.digits 10 n).map digitChar).reverse := congrArg String.data h
    have hmap : (Nat.digits 10 m).map digitChar = (Nat.digits 10 n).map digitChar :=
      List.reverse_injective hdata
    have hdig : Nat.digits 10 m = Nat.digits 10 n :=
      map_digitChar_inj _ _ (fun x hx => Nat.digits_lt_base (by norm_num) hx)
        (fun x hx => Nat.digits_lt_base (by norm_num) hx) hmap
    have h₁ := Nat.ofDigits_digits 10 m
    have h₂ := Nat.ofDigits_digits 10 n
    rw [hdig] at h₁
    omega

/-! ## String concatenation cancellation -/

theorem string_append_left_cancel (p s t : String) (h : p ++ s = p ++ t) : s = t := by
  have hd : p.data ++ s.data = p.data ++ t.data := by
    have := congrArg String.data h
    simpa [String.data_append] using this
  exact String.ext (List.append_cancel_left hd)

theorem string_append_right_cancel (s t q : String) (h : s ++ q = t ++ q) : s = t := by
  have hd : s.data ++ q.data = t.data ++ q.data := by
    have := congrArg String.data h
    simpa [String.data_append] using this
  exact String.ext (List.append_cancel_right hd)

/-! ## Rolling policy (policies.py, `TimeBasedRollingPolicy`)

State of a `TimeBasedRollingPolicy` object.  The compiled regular expression
`_pattern_regex` is embedded as the predicate `pattern_match` on file names;
the per-directory cache `_file_cache` is modelled for the single directory of
the active file.  `datetime.now().strftime(...)` is passed in as `today`.
-/

/-- One entry of `files_info`: a `(entry.path, entry.stat())` pair restricted
to the fields the code reads (`st_mtime`, `st_size`). -/
structure FileInfo where
  path : String
  mtime : Rat
  size : Nat
deriving DecidableEq, Repr

/-- State of a `TimeBasedRollingPolicy` object. -/
structure TimeBasedRollingPolicy where
  max_history : Nat
  total_size_cap : Nat
  compress : Bool
  pattern_match : String → Bool
  current_date : String
  current_index : Nat
  file_cache : Option (List FileInfo)
  last_cleanup : Rat

/-- Embedding of `TimeBasedRollingPolicy.get_rolled_file_name`
(policies.py lines 64-74).  Returns the rolled name and the updated policy
state. -/
def get_rolled_file_name (today : String) (active_file : String)
    (p : TimeBasedRollingPolicy) : String × TimeBasedRollingPolicy :=
  let p := if today ≠ p.current_date
    then { p with current_date := today, current_index := 0 } else p
  let p := { p with current_index := p.current_index + 1 }
  if p.compress then
    (active_file ++ "." ++ p.current_date ++ "." ++ natDecimal p.current_index ++ ".gz", p)
  else
    (active_file ++ "." ++ p.current_date ++ "." ++ natDecimal p.current_index, p)

/-- Age of a file in days, `(current_time - stat.st_mtime) / (24 * 3600)`
(policies.py line 105). -/
def fileAgeDays (current_time : Rat) (f : FileInfo) : Rat :=
  (current_time - f.mtime) / (24 * 3600)

/-- The marking loop of `_clean_history_files` (policies.py lines 99-110):
walks the (already sorted) `files_info` list with the running kept-size
accumulator `total_size`, and splits it into `(files_to_delete, kept)`. -/
def cleanWalk (current_time : Rat) (max_history total_size_cap : Nat) :
    List FileInfo → Nat → List FileInfo × List FileInfo
  | [], _ => ([], [])
  | f :: rest, total_size =>
    if fileAgeDays current_time f > (max_history : Rat)
        ∨ total_size + f.size > total_size_cap then
      let p := cleanWalk current_time max_history total_size_cap rest total_size
      (f :: p.1, p.2)
    else
      let p := cleanWalk current_time max_history total_size_cap rest (total_size + f.size)
      (p.1, f :: p.2)

/-- The final value of the running kept-size accumulator of `cleanWalk`. -/
def walkTotal (current_time : Rat) (max_history total_size_cap : Nat) :
    List FileInfo → Nat → Nat
  | [], total_size => total_size
  | f :: rest, total_size =>
    if fileAgeDays current_time f > (max_history : Rat)
        ∨ total_size + f.size > total_size_cap then
      walkTotal current_time max_history total_size_cap rest total_size
    else
      walkTotal current_time max_history total_size_cap rest (total_size + f.size)

/-- The sort of `files_info` in `_clean_history_files` (policies.py lines
102-104): `sorted(files_info, key=lambda x: x[1].st_mtime, reverse=True)`,
a stable sort by modification time, newest first. -/
def sortFilesByMtimeDesc (files_info : List FileInfo) : List FileInfo :=
  files_info.mergeSort (fun a b => b.mtime ≤ a.mtime)

/-- The deletion/retention selection performed by one retention sweep on a
scanned `files_info` list: sort newest first, then run the marking loop with
accumulator `0`. -/
def cleanSelect (current_time : Rat) (max_history total_size_cap : Nat)
    (files_info : List FileInfo) : List FileInfo × List FileInfo :=
  cleanWalk current_time max_history total_size_cap
    (sortFilesByMtimeDesc files_info) 0

/-! ## Triggering policy (policies.py, `SizeBasedTriggeringPolicy`) -/

/-- State of a `SizeBasedTriggeringPolicy` object. -/
structure SizeBasedTriggeringPolicy where
  max_size : Nat
  check_interval : Rat
  last_size : Nat
  last_check : Rat

/-- Embedding of `SizeBasedTriggeringPolicy.is_triggered` (policies.py lines
134-148).  `file_size` is the result of `os.path.getsize(current_file)`
(`none` when the stat raises `OSError`); `record` is `none` when Python
passes `record=None`, in which case `record.getMessage()` raises
`AttributeError`, modelled as `Except.error`. -/
def is_triggered (now : Rat) (file_size : Option Nat) (record : Option Nat)
    (p : SizeBasedTriggeringPolicy) :
    Except Unit (Bool × SizeBasedTriggeringPolicy) :=
  if now - p.last_check < p.check_interval then
    match record with
    | none => .error ()
    | some msg_len =>
      let p := { p with last_size := p.last_size + msg_len + 100 }
      .ok (decide (p.last_size ≥ p.max_size), p)
  else
    match file_size with
    | some size =>
      .ok (decide (size ≥ p.max_size), { p with last_size := size, last_check := now })
    | none => .ok (false, p)

/-! ## File system model

A flat file system: the directory of the active file.  `mtime` is the
modification time observed by `entry.stat()`. -/

/-- A file on disk: path, content, modification time. -/
structure FsFile where
  path : String
  content : String
  mtime : Rat
deriving DecidableEq, Repr

/-- Look a path up in the file system. -/
def fsLookup (fs : List FsFile) (p : String) : Option FsFile :=
  fs.find? (fun f => f.path = p)

/-- Embedding of `os.path.exists`. -/
def fsExists (fs : List FsFile) (p : String) : Bool :=
  (fsLookup fs p).isSome

/-- Embedding of `os.remove`. -/
def fsRemove (fs : List FsFile) (p : String) : List FsFile :=
  fs.filter (fun f => ¬ f.path = p)

/-- Create (or truncate) a file with the given content, as `open(p, 'wb')`
followed by writing `content` does. -/
def fsCreate (fs : List FsFile) (p : String) (content : String) (now : Rat) :
    List FsFile :=
  fsRemove fs p ++ [⟨p, content, now⟩]

/-- Append `content` to the file at `p` (mode `'a'` semantics): create the
file when absent. -/
def fsAppend (fs : List FsFile) (p : String) (content : String) (now : Rat) :
    List FsFile :=
  if fsExists fs p then
    fs.map (fun f => if f.path = p then { f with content := f.content ++ content, mtime := now } else f)
  else
    fs ++ [⟨p, content, now⟩]

/-- Embedding of `os.rename old new` (clobbers `new`, preserves mtime). -/
def fsRename (fs : List FsFile) (old new : String) : List FsFile :=
  (fsRemove fs new).map (fun f => if f.path = old then { f with path := new } else f)

/-! ## Handler model (handlers.py, `BaseLogbackHandler`) -/

/-- The `_metrics` dictionary after `_init_metrics`, as a structure with one
field per key. -/
structure Metrics where
  written_bytes : Nat
  written_records : Nat
  rollover_count : Nat
  write_time : Rat
  last_write : Rat
  errors : Nat
deriving DecidableEq, Repr

/-- State of a `BaseLogbackHandler` object.  `metrics = none` models
`_metrics is None` (metrics disabled). -/
structure BaseLogbackHandler where
  baseFilename : String
  rolling_policy : TimeBasedRollingPolicy
  triggering_policy : SizeBasedTriggeringPolicy
  buffer : String
  buffer_size : Nat
  max_buffer_size : Nat
  metrics : Option Metrics

/-- A handler together with the world it acts on: the file system of the log
directory and the contents of the spill files written to the backup
directory (one entry per `backup_<timestamp>.log` file, in creation order). -/
structure SysState where
  handler : BaseLogbackHandler
  fs : List FsFile
  backups : List String

/-- Embedding of `BaseLogbackHandler._handle_error` (handlers.py lines
78-91): bump the `errors` counter when metrics are enabled, then write the
current buffer contents to a fresh timestamped backup file (modelled as
appending to `backups`; the best-effort backup write is modelled as
succeeding, secondary failures being swallowed by the code). -/
def handleError (s : SysState) : SysState :=
  { s with
    handler := { s.handler with
      metrics := s.handler.metrics.map (fun m => { m with errors := m.errors + 1 }) }
    backups := s.backups ++ [s.handler.buffer] }

/-- Embedding of `TimeBasedRollingPolicy._clean_history_files`
(policies.py lines 79-121) acting on the handler's directory: obtain
`files_info` from the cache when it is fresh, else re-scan the directory for
entries matching the pattern; mark files via the sorted walk; delete the
marked files (deletions modelled as succeeding; per-file failures are
swallowed by the code) and force-invalidate the cache when anything was
deleted. -/
def cleanHistoryFiles (now : Rat) (s : SysState) : SysState :=
  let p := s.handler.rolling_policy
  let scanned : List FileInfo :=
    (s.fs.filter (fun f => p.pattern_match f.path)).map
      (fun f => ⟨f.path, f.mtime, f.content.utf8ByteSize⟩)
  let cacheFresh : Bool := p.file_cache.isSome && decide (now - p.last_cleanup < 3600)
  let files_info : List FileInfo := if cacheFresh then p.file_cache.getD [] else scanned
  let p := if cacheFresh then p else { p with file_cache := some scanned, last_cleanup := now }
  let files_to_delete : List String :=
    (cleanWalk now p.max_history p.total_size_cap (sortFilesByMtimeDesc files_info) 0).1.map
      (fun f => f.path)
  if files_to_delete ≠ [] then
    { s with
      fs := s.fs.filter (fun f => ¬ files_to_delete.contains f.path)
      handler := { s.handler with
        rolling_policy := { p with file_cache := none, last_cleanup := now } } }
  else
    { s with handler := { s.handler with rolling_policy := p } }

/-- The rename/compress stage of `BaseLogbackHandler.doRollover`
(handlers.py lines 46-68): compute the rolled name (updating the policy
state), then, when the active file exists, compress it to
`f"{rolled_file}.gz"` and remove it, or rename it to `rolled_file`;
an `OSError` there (`renameOk = false`) is routed to `_handle_error`. -/
def doRolloverRename (now : Rat) (today : String) (renameOk : Bool)
    (s : SysState) : SysState :=
  let h := s.handler
  let rolled_file := (get_rolled_file_name today h.baseFilename h.rolling_policy).1
  let rp := (get_rolled_file_name today h.baseFilename h.rolling_policy).2
  let s := { s with handler := { h with rolling_policy := rp } }
  if fsExists s.fs s.handler.baseFilename then
    if renameOk then
      if s.handler.rolling_policy.compress then
        let content := (Option.map (fun f => f.content)
          (fsLookup s.fs s.handler.baseFilename)).getD ""
        { s with fs := (fsRemove
            (fsCreate s.fs (rolled_file ++ ".gz") content now)
            s.handler.baseFilename) }
      else
        { s with fs := fsRename s.fs s.handler.baseFilename rolled_file }
    else handleError s
  else s

/-- The closing stage of `BaseLogbackHandler.doRollover` (handlers.py lines
69-76): run the retention sweep (`rolling_policy.roll_over`), reopen the
stream in mode `'a'` (creating an empty active file when absent), and bump
`rollover_count` when metrics are enabled. -/
def doRolloverFinish (now : Rat) (s : SysState) : SysState :=
  let s := cleanHistoryFiles now s
  let s := { s with fs :=
    (if fsExists s.fs s.handler.baseFilename then s.fs
     else fsCreate s.fs s.handler.baseFilename "" now) }
  match s.handler.metrics with
  | some m =>
    { s with handler := { s.handler with
        metrics := some { m with rollover_count := m.rollover_count + 1 } } }
  | none => s

/-- Embedding of `BaseLogbackHandler.doRollover` (handlers.py lines 46-76).
`renameOk` is the oracle for the `OSError` that the rename/compress step can
raise; gzip compression is abstracted to the identity on contents. -/
def doRollover (now : Rat) (today : String) (renameOk : Bool) (s : SysState) :
    SysState :=
  doRolloverFinish now (doRolloverRename now today renameOk s)

/-- Embedding of `BaseLogbackHandler.flush` (handlers.py lines 115-136).
No-op when the buffer is empty.  Otherwise `shouldRollover(None)` runs the
triggering policy on the active file's real size with `record = None`; an
exception there (or `writeOk = false` on the stream write) is caught by the
enclosing `except` and routed to `_handle_error`.  The buffer is cleared only
when the whole `try` block completes. -/
def flush (now : Rat) (today : String) (renameOk writeOk : Bool)
    (s : SysState) : SysState :=
  if s.handler.buffer_size = 0 then s
  else
    let file_size := Option.map (fun f => f.content.utf8ByteSize)
      (fsLookup s.fs s.handler.baseFilename)
    match is_triggered now file_size none s.handler.triggering_policy with
    | .error _ => handleError s
    | .ok (trig, tp) =>
      let s := { s with handler := { s.handler with triggering_policy := tp } }
      let s := if trig then doRollover now today renameOk s else s
      if writeOk then
        { s with
          fs := fsAppend s.fs s.handler.baseFilename s.handler.buffer now
          handler := { s.handler with buffer := "", buffer_size := 0 } }
      else handleError s

/-- The per-call inputs of one `emit`: the wall clock at the start of the
call, the elapsed time of the call, today's date string, the two I/O oracles
consumed by a flush that this emit may trigger, and the rendered record
(`self.format(record) + self.terminator`). -/
structure EmitCall where
  now : Rat
  dt : Rat
  today : String
  renameOk : Bool
  writeOk : Bool
  msg : String

/-- Embedding of `BaseLogbackHandler.emit` (handlers.py lines 93-113):
`msg_size = len(msg.encode(...))`; flush first when appending would exceed
`_max_buffer_size`; append; update the metrics. -/
def emit (c : EmitCall) (s : SysState) : SysState :=
  let msg_size := c.msg.utf8ByteSize
  let s := if s.handler.buffer_size + msg_size > s.handler.max_buffer_size
    then flush c.now c.today c.renameOk c.writeOk s else s
  let s := { s with handler := { s.handler with
    buffer := s.handler.buffer ++ c.msg,
    buffer_size := s.handler.buffer_size + msg_size } }
  match s.handler.metrics with
  | some m =>
    { s with handler := { s.handler with metrics := some { m with
          written_bytes := m.written_bytes + msg_size,
          written_records := m.written_records + 1,
          write_time := m.write_time + c.dt,
          last_write := c.now } } }
  | none => s

/-- A sequence of `emit` calls, run left to right. -/
def emitSeq (calls : List EmitCall) (s : SysState) : SysState :=
  calls.foldl (fun s c => emit c s) s

/-! ## Async handler (handlers.py, `AsyncLogbackHandler`) -/

/-- State of an `AsyncLogbackHandler`: the wrapped handler state plus the
bounded queue (front of the list is the head of the FIFO). -/
structure AsyncState where
  sys : SysState
  queue : List String
  queue_maxsize : Nat

/-- A Python `Queue` with `maxsize > 0` is full exactly when it holds
`maxsize` items; `maxsize ≤ 0` means unbounded. -/
def queueFull (a : AsyncState) : Bool :=
  0 < a.queue_maxsize && a.queue.length ≥ a.queue_maxsize

/-- Embedding of `AsyncLogbackHandler.emit` (handlers.py lines 150-155):
`put_nowait` the rendered record; on `queue.Full`, route to
`_handle_error`. -/
def async_emit (record : String) (a : AsyncState) : AsyncState :=
  if queueFull a then { a with sys := handleError a.sys }
  else { a with queue := a.queue ++ [record] }

/-! ## Dictionary copy semantics for `get_metrics` (handlers.py lines 39-41)

Claim C10 is about Python object identity (`dict.copy()` versus aliasing),
so this part of the model tracks addresses explicitly: a tiny heap of
dictionary cells, where a dictionary value is its list of key/value entries
and an address is an index into the heap. -/

/-- A heap of Python dict objects; the address of a cell is its index. -/
structure PyHeap where
  cells : List (List (String × Rat))

/-- Allocate a fresh dict with the given entries; returns the new heap and
the fresh address. -/
def heapAlloc (h : PyHeap) (v : List (String × Rat)) : PyHeap × Nat :=
  ({ cells := h.cells ++ [v] }, h.cells.length)

/-- Read the entries of the dict at address `a`. -/
def heapGet (h : PyHeap) (a : Nat) : List (String × Rat) :=
  (h.cells[a]?).getD []

/-- Overwrite the dict at address `a` (a mutation such as `d[k] = v`
performed on that object). -/
def heapSet (h : PyHeap) (a : Nat) (v : List (String × Rat)) : PyHeap :=
  { cells := h.cells.set a v }

/-- The entries `_init_metrics` puts into `self._metrics`
(handlers.py lines 27-37). -/
def initMetricsEntries : List (String × Rat) :=
  [("written_bytes", 0), ("written_records", 0), ("rollover_count", 0),
   ("write_time", 0), ("last_write", 0), ("errors", 0)]

/-- Embedding of `BaseLogbackHandler.get_metrics` (handlers.py lines 39-41):
`return self._metrics.copy() if self._metrics else {}`.  `metricsAddr` is the
address held by `self._metrics` (`none` when metrics are disabled).  Python
truthiness makes an empty dict take the `{}` branch as well.  The result is
the address of the returned dict. -/
def get_metrics (metricsAddr : Option Nat) (h : PyHeap) : PyHeap × Nat :=
  match metricsAddr with
  | some a => if heapGet h a ≠ [] then heapAlloc h (heapGet h a) else heapAlloc h []
  | none => heapAlloc h []

/-! ## Lemmas about the retention walk -/

theorem cleanWalk_kept (current_time : Rat) (max_history total_size_cap : Nat) :
    ∀ (files : List FileInfo) (total_size : Nat), total_size ≤ total_size_cap →
      total_size +
        (((cleanWalk current_time max_history total_size_cap files total_size).2).map
          FileInfo.size).sum ≤ total_size_cap ∧
      ∀ f ∈ (cleanWalk current_time max_history total_size_cap files total_size).2,
        fileAgeDays current_time f ≤ (max_history : Rat) := by
  intro files
  induction files with
  | nil => intro total h; simp [cleanWalk, h]
  | cons f rest ih =>
    intro total h
    by_cases hc : fileAgeDays current_time f > (max_history : Rat)
        ∨ total + f.size > total_size_cap
    · have := ih total h
      simp only [cleanWalk, if_pos hc]
      exact ⟨this.1, this.2⟩
    · have hage : fileAgeDays current_time f ≤ (max_history : Rat) := by
        by_contra hlt
        exact hc (Or.inl (lt_of_not_le hlt))
      have hle : total + f.size ≤ total_size_cap := by
        by_contra hgt
        exact hc (Or.inr (by omega))
      have := ih (total + f.size) hle
      simp only [cleanWalk, if_neg hc]
      constructor
      · simp only [List.map_cons, List.sum_cons]
        omega
      · intro g hg
        simp only [List.mem_cons] at hg
        rcases hg with rfl | hg
        · exact hage
        · exact this.2 g hg

/-- Modelled from the spec (retention sweep, step 3): "Walk newest→oldest,
accumulating a running kept-size total.  A file is marked for deletion if its
age in days exceeds `max_history`, OR if including it would push the running
total past `total_size_cap`; otherwise it is kept and its size added to the
running total."  Returns the per-file deletion marks, in walk order. -/
def specSweepMarks (current_time : Rat) (max_history total_size_cap : Nat) :
    List FileInfo → Nat → List Bool
  | [], _ => []
  | f :: rest, running_total =>
    if fileAgeDays current_time f > (max_history : Rat)
        ∨ running_total + f.size > total_size_cap then
      true :: specSweepMarks current_time max_history total_size_cap rest running_total
    else
      false :: specSweepMarks current_time max_history total_size_cap rest
        (running_total + f.size)

theorem cleanWalk_eq_marks (t : Rat) (maxH cap : Nat) :
    ∀ (files : List FileInfo) (total : Nat),
      (cleanWalk t maxH cap files total).1 =
        ((files.zip (specSweepMarks t maxH cap files total)).filter
          (fun p => p.2)).map Prod.fst ∧
      (cleanWalk t maxH cap files total).2 =
        ((files.zip (specSweepMarks t maxH cap files total)).filter
          (fun p => !p.2)).map Prod.fst := by
  intro files
  induction files with
  | nil => intro total; simp [cleanWalk, specSweepMarks]
  | cons f rest ih =>
    intro total
    by_cases hc : fileAgeDays t f > (maxH : Rat) ∨ total + f.size > cap
    · simp only [cleanWalk, specSweepMarks, if_pos hc, List.zip_cons_cons,
        List.filter_cons, List.map_cons]
      simpa using ih total
    · simp only [cleanWalk, specSweepMarks, if_neg hc, List.zip_cons_cons,
        List.filter_cons, List.map_cons]
      simpa using ih (total + f.size)

theorem walkTotal_le (t : Rat) (maxH cap : Nat) :
    ∀ (files : List FileInfo) (total : Nat),
      total ≤ walkTotal t maxH cap files total := by
  intro files
  induction files with
  | nil => intro total; simp [walkTotal]
  | cons f rest ih =>
    intro total
    by_cases hc : fileAgeDays t f > (maxH : Rat) ∨ total + f.size > cap
    · simpa only [walkTotal, if_pos hc] using ih total
    · have := ih (total + f.size)
      simp only [walkTotal, if_neg hc]
      omega

theorem mem_delete_of_split (t : Rat) (maxH cap : Nat) :
    ∀ (pre : List FileInfo) (x : FileInfo) (post : List FileInfo) (total : Nat),
      (fileAgeDays t x > (maxH : Rat)
        ∨ walkTotal t maxH cap pre total + x.size > cap) →
      x ∈ (cleanWalk t maxH cap (pre ++ x :: post) total).1 := by
  intro pre
  induction pre with
  | nil =>
    intro x post total hx
    simp only [walkTotal] at hx
    simp only [List.nil_append, cleanWalk, if_pos hx, List.mem_cons, true_or]
  | cons p pre ih =>
    intro x post total hx
    by_cases hp : fileAgeDays t p > (maxH : Rat) ∨ total + p.size > cap
    · have hx₁ : fileAgeDays t x > (maxH : Rat)
          ∨ walkTotal t maxH cap pre total + x.size > cap := by
        simpa only [walkTotal, if_pos hp] using hx
      simp only [List.cons_append, cleanWalk, if_pos hp, List.mem_cons]
      exact Or.inr (ih x post total hx₁)
    · have hx₁ : fileAgeDays t x > (maxH : Rat)
          ∨ walkTotal t maxH cap pre (total + p.size) + x.size > cap := by
        simpa only [walkTotal, if_neg hp] using hx
      simp only [List.cons_append, cleanWalk, if_neg hp]
      exact ih x post (total + p.size) hx₁

theorem walkTotal_append (t : Rat) (maxH cap : Nat) :
    ∀ (pre post : List FileInfo) (total : Nat),
      walkTotal t maxH cap (pre ++ post) total =
        walkTotal t maxH cap post (walkTotal t maxH cap pre total) := by
  intro pre
  induction pre with
  | nil => intro post total; simp [walkTotal]
  | cons p pre ih =>
    intro post total
    by_cases hp : fileAgeDays t p > (maxH : Rat) ∨ total + p.size > cap
    · simp only [List.cons_append, walkTotal, if_pos hp]
      exact ih post total
    · simp only [List.cons_append, walkTotal, if_neg hp]
      exact ih post (total + p.size)

theorem sortFilesByMtimeDesc_sorted (files : List FileInfo) :
    (sortFilesByMtimeDesc files).Pairwise (fun a b => b.mtime ≤ a.mtime) := by
  have h : (sortFilesByMtimeDesc files).Pairwise
      (fun a b => decide (b.mtime ≤ a.mtime) = true) := by
    unfold sortFilesByMtimeDesc
    exact List.sorted_mergeSort
      (fun a b c h₁ h₂ => by
        simp only [decide_eq_true_eq] at *
        exact le_trans h₂ h₁)
      (fun a b => by
        simp only [Bool.or_eq_true, decide_eq_true_eq]
        exact le_total b.mtime a.mtime)
      files
  refine List.Pairwise.imp ?_ h
  intro a b hab
  simpa using hab

theorem sortFilesByMtimeDesc_perm (files : List FileInfo) :
    (sortFilesByMtimeDesc files).Perm files :=
  List.mergeSort_perm files _

/-- C5: after a retention sweep's selection over the walked entries, the
retained files' sizes sum to at most `total_size_cap`, and every retained
file's age is at most `max_history` days. -/
theorem retention_sweep_cap_and_age (current_time : Rat)
    (max_history total_size_cap : Nat) (files_info : List FileInfo) :
    ((((cleanSelect current_time max_history total_size_cap files_info).2).map
        FileInfo.size).sum ≤ total_size_cap) ∧
    ∀ f ∈ (cleanSelect current_time max_history total_size_cap files_info).2,
      fileAgeDays current_time f ≤ (max_history : Rat) := by
  have h := cleanWalk_kept current_time max_history total_size_cap
    (sortFilesByMtimeDesc files_info) 0 (Nat.zero_le _)
  exact ⟨by simpa [cleanSelect] using h.1, by simpa [cleanSelect] using h.2⟩

/-- C5 witness: the theorem applied to a concrete sweep input. -/
theorem retention_sweep_cap_and_age_witness :
    ((((cleanSelect 0 0 10 [⟨"f", 0, 6⟩]).2).map FileInfo.size).sum ≤ 10) ∧
      fileAgeDays 0 ⟨"f", 0, 6⟩ ≤ (0 : Rat) := by
  refine ⟨(retention_sweep_cap_and_age 0 0 10 [⟨"f", 0, 6⟩]).1, ?_⟩
  refine (retention_sweep_cap_and_age 0 0 10 [⟨"f", 0, 6⟩]).2 ⟨"f", 0, 6⟩ ?_
  simp [cleanSelect, sortFilesByMtimeDesc, cleanWalk, fileAgeDays]

/-- C6: the retention sweep walks the matched entries sorted newest first
(conjuncts 1 and 2), its delete/keep decisions are exactly the spec's marking
rule (conjuncts 3 and 4), and — the recency consequence — when a newer file
`f` is deleted solely for the size cap, any older file `g` at least as large
is deleted too (conjunct 5; the running total at `g` is at least the one at
`f`, so `g`'s inclusion would also exceed the cap). -/
theorem retention_walk_rule_and_recency (t : Rat) (maxH cap : Nat)
    (files pre mid post : List FileInfo) (f g : FileInfo)
    (hsplit : sortFilesByMtimeDesc files = pre ++ f :: (mid ++ g :: post))
    (_hage : fileAgeDays t f ≤ (maxH : Rat))
    (hdel : cap < walkTotal t maxH cap pre 0 + f.size)
    (hsize : f.size ≤ g.size) :
    (sortFilesByMtimeDesc files).Pairwise (fun a b => b.mtime ≤ a.mtime) ∧
    (sortFilesByMtimeDesc files).Perm files ∧
    (cleanSelect t maxH cap files).1 =
      (((sortFilesByMtimeDesc files).zip
        (specSweepMarks t maxH cap (sortFilesByMtimeDesc files) 0)).filter
          (fun p => p.2)).map Prod.fst ∧
    (cleanSelect t maxH cap files).2 =
      (((sortFilesByMtimeDesc files).zip
        (specSweepMarks t maxH cap (sortFilesByMtimeDesc files) 0)).filter
          (fun p => !p.2)).map Prod.fst ∧
    f ∈ (cleanSelect t maxH cap files).1 ∧
    g ∈ (cleanSelect t maxH cap files).1 := by
  have hmarks := cleanWalk_eq_marks t maxH cap (sortFilesByMtimeDesc files) 0
  refine ⟨sortFilesByMtimeDesc_sorted files, sortFilesByMtimeDesc_perm files,
    hmarks.1, hmarks.2, ?_, ?_⟩
  · unfold cleanSelect
    rw [hsplit]
    exact mem_delete_of_split t maxH cap pre f (mid ++ g :: post) 0 (Or.inr hdel)
  · unfold cleanSelect
    rw [hsplit]
    have hassoc : pre ++ f :: (mid ++ g :: post) = (pre ++ f :: mid) ++ g :: post := by
      simp
    rw [hassoc]
    refine mem_delete_of_split t maxH cap (pre ++ f :: mid) g post 0 (Or.inr ?_)
    have h₁ : walkTotal t maxH cap (pre ++ f :: mid) 0 =
        walkTotal t maxH cap (f :: mid) (walkTotal t maxH cap pre 0) :=
      walkTotal_append t maxH cap pre (f :: mid) 0
    have hfcond : fileAgeDays t f > (maxH : Rat)
        ∨ walkTotal t maxH cap pre 0 + f.size > cap := Or.inr hdel
    have h₂ : walkTotal t maxH cap (f :: mid) (walkTotal t maxH cap pre 0) =
        walkTotal t maxH cap mid (walkTotal t maxH cap pre 0) := by
      simp only [walkTotal, if_pos hfcond]
    have h₃ := walkTotal_le t maxH cap mid (walkTotal t maxH cap pre 0)
    rw [h₁, h₂]
    omega

/-- C6 witness: the theorem applied to a concrete two-file directory where
the newer file of size 6 overflows the cap 5, so the older file of size 7 is
deleted as well. -/
theorem retention_walk_rule_and_recency_witness :
    ⟨"g", 0, 7⟩ ∈ (cleanSelect 0 0 5 [(⟨"f", 0, 6⟩ : FileInfo), ⟨"g", 0, 7⟩]).1 :=
  (retention_walk_rule_and_recency 0 0 5 [⟨"f", 0, 6⟩, ⟨"g", 0, 7⟩] [] [] []
    ⟨"f", 0, 6⟩ ⟨"g", 0, 7⟩
    (List.mergeSort_of_sorted (by simp))
    (by simp [fileAgeDays])
    (by simp [walkTotal])
    (by simp)).2.2.2.2.2

/-! ## Lemmas about rolled-name distinctness -/

theorem decimal_suffix_inj (P : String) (i j : Nat)
    (h : P ++ natDecimal i = P ++ natDecimal j) : i = j :=
  natDecimal_inj i j (string_append_left_cancel P _ _ h)

theorem decimal_slot_inj (P S : String) (i j : Nat)
    (h : P ++ natDecimal i ++ S = P ++ natDecimal j ++ S) : i = j :=
  natDecimal_inj i j
    (string_append_left_cancel P _ _ (string_append_right_cancel _ _ S h))

theorem get_rolled_file_name_eq (today active_file : String)
    (p : TimeBasedRollingPolicy) :
    get_rolled_file_name today active_file p =
      (((if p.compress
          then active_file ++ "." ++ today ++ "." ++
            natDecimal ((if today = p.current_date then p.current_index else 0) + 1) ++ ".gz"
          else active_file ++ "." ++ today ++ "." ++
            natDecimal ((if today = p.current_date then p.current_index else 0) + 1))),
       { p with
          current_date := today,
          current_index := (if today = p.current_date then p.current_index else 0) + 1 }) := by
  cases p with
  | mk mh cap cp pm cd ci fc lc =>
    by_cases hd : today = cd <;> cases cp <;>
      simp [get_rolled_file_name, hd]

/-- C7: `get_rolled_file_name` resets the index to zero on a date change
before incrementing, increments by exactly 1 on every call, embeds the new
index in the returned name, and therefore two successive calls on the same
date return indices differing by exactly 1 and distinct names; the first
call after a date change returns index 1. -/
theorem rolled_name_sequence (today active_file : String)
    (p p₁ p₂ : TimeBasedRollingPolicy) (n₁ n₂ : String)
    (h₁ : get_rolled_file_name today active_file p = (n₁, p₁))
    (h₂ : get_rolled_file_name today active_file p₁ = (n₂, p₂)) :
    p₁.current_index = (if today = p.current_date then p.current_index else 0) + 1 ∧
    (today ≠ p.current_date → p₁.current_index = 1) ∧
    p₁.current_date = today ∧
    n₁ = active_file ++ "." ++ today ++ "." ++ natDecimal p₁.current_index ++
      (if p.compress then ".gz" else "") ∧
    p₂.current_index = p₁.current_index + 1 ∧
    n₁ ≠ n₂ := by
  rw [get_rolled_file_name_eq] at h₁
  cases h₁
  rw [get_rolled_file_name_eq] at h₂
  cases h₂
  refine ⟨rfl, fun hne => by simp [hne], rfl, ?_, by simp, ?_⟩
  · by_cases hcp : p.compress <;> simp [hcp]
  · intro hne
    by_cases hcp : p.compress
    · simp only [hcp, if_true, eq_self_iff_true] at hne
      have := decimal_slot_inj (active_file ++ "." ++ today ++ ".") ".gz" _ _ hne
      omega
    · simp only [hcp, if_false, Bool.false_eq_true, eq_self_iff_true, if_true] at hne
      have := decimal_suffix_inj (active_file ++ "." ++ today ++ ".") _ _ hne
      omega

/-- C7 witness: the theorem applied to a concrete policy on a fixed date. -/
theorem rolled_name_sequence_witness :
    ((get_rolled_file_name "2026-10-12" "app.log"
      ⟨15, 1000, false, fun _ => false, "2026-10-11", 7, none, 0⟩).2.current_index = 1) ∧
    (get_rolled_file_name "2026-10-12" "app.log"
      ⟨15, 1000, false, fun _ => false, "2026-10-11", 7, none, 0⟩).1 ≠
      (get_rolled_file_name "2026-10-12" "app.log"
        (get_rolled_file_name "2026-10-12" "app.log"
          ⟨15, 1000, false, fun _ => false, "2026-10-11", 7, none, 0⟩).2).1 := by
  have h := rolled_name_sequence "2026-10-12" "app.log"
    ⟨15, 1000, false, fun _ => false, "2026-10-11", 7, none, 0⟩ _ _ _ _ rfl rfl
  exact ⟨h.2.1 (by simp), h.2.2.2.2.2⟩

/-- C8: when the check interval has elapsed and the stat of the active file
fails (`os.path.getsize` raises `OSError` because the file is missing),
`is_triggered` returns `False` without raising, and the policy state is left
unchanged. -/
theorem is_triggered_stat_failure (now : Rat) (record : Option Nat)
    (p : SizeBasedTriggeringPolicy)
    (helapsed : ¬ (now - p.last_check < p.check_interval)) :
    is_triggered now none record p = .ok (false, p) := by
  unfold is_triggered
  rw [if_neg helapsed]

/-- C8 witness: the theorem applied at a concrete elapsed-interval state. -/
theorem is_triggered_stat_failure_witness :
    (¬ ((5 : Rat) - (⟨1024, 1, 0, 0⟩ : SizeBasedTriggeringPolicy).last_check <
        (⟨1024, 1, 0, 0⟩ : SizeBasedTriggeringPolicy).check_interval)) ∧
    is_triggered 5 none none (⟨1024, 1, 0, 0⟩ : SizeBasedTriggeringPolicy) =
      .ok (false, ⟨1024, 1, 0, 0⟩) :=
  ⟨by simp, is_triggered_stat_failure 5 none ⟨1024, 1, 0, 0⟩ (by simp)⟩

/-- C10: `get_metrics` always returns a dictionary and never raises; with
metrics disabled it returns a (fresh) empty dict, not `None`; with metrics
enabled and the counters dict non-empty (as `_init_metrics` guarantees) it
returns a copy at a fresh address, so mutating the returned dict leaves the
handler's own `_metrics` dict unchanged. -/
theorem get_metrics_copy_semantics (metricsAddr : Option Nat) (h : PyHeap) :
    (metricsAddr = none →
      heapGet (get_metrics metricsAddr h).1 (get_metrics metricsAddr h).2 = []) ∧
    (∀ a, metricsAddr = some a → a < h.cells.length → heapGet h a ≠ [] →
      heapGet (get_metrics metricsAddr h).1 (get_metrics metricsAddr h).2 =
          heapGet h a ∧
        (get_metrics metricsAddr h).2 ≠ a ∧
        ∀ v, heapGet (heapSet (get_metrics metricsAddr h).1
          (get_metrics metricsAddr h).2 v) a = heapGet h a) := by
  constructor
  · rintro rfl
    simp [get_metrics, heapAlloc, heapGet]
  · rintro a rfl hlt hne
    simp only [get_metrics, if_pos hne, heapAlloc]
    refine ⟨?_, ?_, ?_⟩
    · simp [heapGet]
    · omega
    · intro v
      simp only [heapGet, heapSet]
      rw [List.getElem?_set_ne (by omega)]
      rw [List.getElem?_append_left (by simpa using hlt)]

/-- C10 witness: the theorem applied to a concrete heap holding the
`_init_metrics` dictionary at address 0. -/
theorem get_metrics_copy_semantics_witness :
    heapGet (get_metrics (some 0) ⟨[initMetricsEntries]⟩).1
        (get_metrics (some 0) ⟨[initMetricsEntries]⟩).2 =
      heapGet ⟨[initMetricsEntries]⟩ 0 ∧
    (get_metrics (some 0) ⟨[initMetricsEntries]⟩).2 ≠ 0 ∧
    ∀ v, heapGet (heapSet (get_metrics (some 0) ⟨[initMetricsEntries]⟩).1
      (get_metrics (some 0) ⟨[initMetricsEntries]⟩).2 v) 0 =
        heapGet ⟨[initMetricsEntries]⟩ 0 :=
  (get_metrics_copy_semantics (some 0) ⟨[initMetricsEntries]⟩).2 0 rfl
    (by simp) (by simp [heapGet, initMetricsEntries])

/-! ## Frame lemmas for the handler operations -/

theorem handleError_baseFilename (s : SysState) :
    (handleError s).handler.baseFilename = s.handler.baseFilename := rfl

theorem handleError_buffer (s : SysState) :
    (handleError s).handler.buffer = s.handler.buffer := rfl

theorem handleError_buffer_size (s : SysState) :
    (handleError s).handler.buffer_size = s.handler.buffer_size := rfl

theorem handleError_max_buffer_size (s : SysState) :
    (handleError s).handler.max_buffer_size = s.handler.max_buffer_size := rfl

theorem handleError_triggering_policy (s : SysState) :
    (handleError s).handler.triggering_policy = s.handler.triggering_policy := rfl

theorem handleError_fs (s : SysState) :
    (handleError s).fs = s.fs := rfl

theorem handleError_backups (s : SysState) :
    (handleError s).backups = s.backups ++ [s.handler.buffer] := rfl

theorem handleError_metrics (s : SysState) :
    (handleError s).handler.metrics =
      s.handler.metrics.map (fun m => { m with errors := m.errors + 1 }) := rfl

theorem cleanHistoryFiles_baseFilename (now : Rat) (s : SysState) :
    (cleanHistoryFiles now s).handler.baseFilename = s.handler.baseFilename := by
  simp only [cleanHistoryFiles]
  repeat' split
  all_goals rfl

theorem cleanHistoryFiles_buffer (now : Rat) (s : SysState) :
    (cleanHistoryFiles now s).handler.buffer = s.handler.buffer := by
  simp only [cleanHistoryFiles]
  repeat' split
  all_goals rfl

theorem cleanHistoryFiles_buffer_size (now : Rat) (s : SysState) :
    (cleanHistoryFiles now s).handler.buffer_size = s.handler.buffer_size := by
  simp only [cleanHistoryFiles]
  repeat' split
  all_goals rfl

theorem cleanHistoryFiles_max_buffer_size (now : Rat) (s : SysState) :
    (cleanHistoryFiles now s).handler.max_buffer_size = s.handler.max_buffer_size := by
  simp only [cleanHistoryFiles]
  repeat' split
  all_goals rfl

theorem cleanHistoryFiles_triggering_policy (now : Rat) (s : SysState) :
    (cleanHistoryFiles now s).handler.triggering_policy =
      s.handler.triggering_policy := by
  simp only [cleanHistoryFiles]
  repeat' split
  all_goals rfl

theorem cleanHistoryFiles_metrics (now : Rat) (s : SysState) :
    (cleanHistoryFiles now s).handler.metrics = s.handler.metrics := by
  simp only [cleanHistoryFiles]
  repeat' split
  all_goals rfl

theorem cleanHistoryFiles_backups (now : Rat) (s : SysState) :
    (cleanHistoryFiles now s).backups = s.backups := by
  simp only [cleanHistoryFiles]
  repeat' split
  all_goals rfl

theorem doRolloverRename_baseFilename (now : Rat) (today : String)
    (renameOk : Bool) (s : SysState) :
    (doRolloverRename now today renameOk s).handler.baseFilename =
      s.handler.baseFilename := by
  simp only [doRolloverRename]
  repeat' split
  all_goals rfl

theorem doRolloverRename_buffer (now : Rat) (today : String)
    (renameOk : Bool) (s : SysState) :
    (doRolloverRename now today renameOk s).handler.buffer =
      s.handler.buffer := by
  simp only [doRolloverRename]
  repeat' split
  all_goals rfl

theorem doRolloverRename_buffer_size (now : Rat) (today : String)
    (renameOk : Bool) (s : SysState) :
    (doRolloverRename now today renameOk s).handler.buffer_size =
      s.handler.buffer_size := by
  simp only [doRolloverRename]
  repeat' split
  all_goals rfl

theorem doRolloverRename_max_buffer_size (now : Rat) (today : String)
    (renameOk : Bool) (s : SysState) :
    (doRolloverRename now today renameOk s).handler.max_buffer_size =
      s.handler.max_buffer_size := by
  simp only [doRolloverRename]
  repeat' split
  all_goals rfl

theorem doRolloverRename_triggering_policy (now : Rat) (today : String)
    (renameOk : Bool) (s : SysState) :
    (doRolloverRename now today renameOk s).handler.triggering_policy =
      s.handler.triggering_policy := by
  simp only [doRolloverRename]
  repeat' split
  all_goals rfl

theorem doRolloverFinish_baseFilename (now : Rat) (s : SysState) :
    (doRolloverFinish now s).handler.baseFilename = s.handler.baseFilename := by
  simp only [doRolloverFinish]
  split <;> simp [cleanHistoryFiles_baseFilename]

theorem doRolloverFinish_buffer (now : Rat) (s : SysState) :
    (doRolloverFinish now s).handler.buffer = s.handler.buffer := by
  simp only [doRolloverFinish]
  split <;> simp [cleanHistoryFiles_buffer]

theorem doRolloverFinish_buffer_size (now : Rat) (s : SysState) :
    (doRolloverFinish now s).handler.buffer_size = s.handler.buffer_size := by
  simp only [doRolloverFinish]
  split <;> simp [cleanHistoryFiles_buffer_size]

theorem doRolloverFinish_max_buffer_size (now : Rat) (s : SysState) :
    (doRolloverFinish now s).handler.max_buffer_size =
      s.handler.max_buffer_size := by
  simp only [doRolloverFinish]
  split <;> simp [cleanHistoryFiles_max_buffer_size]

theorem doRolloverFinish_triggering_policy (now : Rat) (s : SysState) :
    (doRolloverFinish now s).handler.triggering_policy =
      s.handler.triggering_policy := by
  simp only [doRolloverFinish]
  split <;> simp [cleanHistoryFiles_triggering_policy]

theorem doRolloverFinish_metrics (now : Rat) (s : SysState) :
    (doRolloverFinish now s).handler.metrics =
      s.handler.metrics.map
        (fun m => { m with rollover_count := m.rollover_count + 1 }) := by
  simp only [doRolloverFinish]
  cases hms : s.handler.metrics <;>
  · split
    case _ m heq =>
      rw [cleanHistoryFiles_metrics, hms] at heq
      first
        | (cases heq; simp [cleanHistoryFiles_metrics, hms])
        | simp_all [cleanHistoryFiles_metrics]
    case _ heq =>
      rw [cleanHistoryFiles_metrics, hms] at heq
      first
        | (cases heq; simp [cleanHistoryFiles_metrics, hms])
        | simp_all [cleanHistoryFiles_metrics]

theorem doRollover_baseFilename (now : Rat) (today : String) (renameOk : Bool)
    (s : SysState) :
    (doRollover now today renameOk s).handler.baseFilename =
      s.handler.baseFilename := by
  rw [doRollover, doRolloverFinish_baseFilename, doRolloverRename_baseFilename]

theorem doRollover_buffer (now : Rat) (today : String) (renameOk : Bool)
    (s : SysState) :
    (doRollover now today renameOk s).handler.buffer = s.handler.buffer := by
  rw [doRollover, doRolloverFinish_buffer, doRolloverRename_buffer]

theorem doRollover_buffer_size (now : Rat) (today : String) (renameOk : Bool)
    (s : SysState) :
    (doRollover now today renameOk s).handler.buffer_size =
      s.handler.buffer_size := by
  rw [doRollover, doRolloverFinish_buffer_size, doRolloverRename_buffer_size]

theorem doRollover_max_buffer_size (now : Rat) (today : String) (renameOk : Bool)
    (s : SysState) :
    (doRollover now today renameOk s).handler.max_buffer_size =
      s.handler.max_buffer_size := by
  rw [doRollover, doRolloverFinish_max_buffer_size, doRolloverRename_max_buffer_size]

theorem doRollover_triggering_policy (now : Rat) (today : String)
    (renameOk : Bool) (s : SysState) :
    (doRollover now today renameOk s).handler.triggering_policy =
      s.handler.triggering_policy := by
  rw [doRollover, doRolloverFinish_triggering_policy, doRolloverRename_triggering_policy]

theorem doRolloverRename_metrics (now : Rat) (today : String) (renameOk : Bool)
    (s : SysState) :
    (doRolloverRename now today renameOk s).handler.metrics =
      (if renameOk = false ∧ fsExists s.fs s.handler.baseFilename = true
        then s.handler.metrics.map (fun m => { m with errors := m.errors + 1 })
        else s.handler.metrics) := by
  simp only [doRolloverRename]
  by_cases hex : fsExists s.fs s.handler.baseFilename = true <;>
    by_cases hro : renameOk = true
  · rw [if_pos hex, if_pos hro,
      if_neg (show ¬ (renameOk = false ∧
        fsExists s.fs s.handler.baseFilename = true) from by simp [hro])]
    split <;> rfl
  · rw [if_pos hex,
      if_neg (by simpa using hro),
      if_pos (show renameOk = false ∧
        fsExists s.fs s.handler.baseFilename = true from ⟨by simpa using hro, hex⟩)]
    try rfl
  · rw [if_neg hex,
      if_neg (show ¬ (renameOk = false ∧
        fsExists s.fs s.handler.baseFilename = true) from by simp [hex])]
    try rfl
  · rw [if_neg hex,
      if_neg (show ¬ (renameOk = false ∧
        fsExists s.fs s.handler.baseFilename = true) from by simp [hex])]
    try rfl

theorem doRolloverRename_backups_fsExists (now : Rat) (today : String)
    (renameOk : Bool) (s : SysState) :
    (doRolloverRename now today renameOk s).backups =
      (if renameOk = false ∧ fsExists s.fs s.handler.baseFilename = true
        then s.backups ++ [s.handler.buffer] else s.backups) := by
  simp only [doRolloverRename]
  by_cases hex : fsExists s.fs s.handler.baseFilename = true <;>
    by_cases hro : renameOk = true
  · rw [if_pos hex, if_pos hro,
      if_neg (show ¬ (renameOk = false ∧
        fsExists s.fs s.handler.baseFilename = true) from by simp [hro])]
    split <;> rfl
  · rw [if_pos hex,
      if_neg (by simpa using hro),
      if_pos (show renameOk = false ∧
        fsExists s.fs s.handler.baseFilename = true from ⟨by simpa using hro, hex⟩)]
    try rfl
  · rw [if_neg hex,
      if_neg (show ¬ (renameOk = false ∧
        fsExists s.fs s.handler.baseFilename = true) from by simp [hex])]
    try rfl
  · rw [if_neg hex,
      if_neg (show ¬ (renameOk = false ∧
        fsExists s.fs s.handler.baseFilename = true) from by simp [hex])]
    try rfl

theorem doRollover_metrics_eq (now : Rat) (today : String) (renameOk : Bool)
    (s : SysState) :
    (doRollover now today renameOk s).handler.metrics =
      (if renameOk = false ∧ fsExists s.fs s.handler.baseFilename = true
        then s.handler.metrics.map (fun m => { m with errors := m.errors + 1 })
        else s.handler.metrics).map
          (fun m => { m with rollover_count := m.rollover_count + 1 }) := by
  rw [doRollover, doRolloverFinish_metrics, doRolloverRename_metrics]

/-- C9: every `doRollover` call on a handler with metrics enabled increments
`rollover_count` by exactly 1 — also when the rename/compress step fails with
an `OSError`, in which case `errors` is incremented as well: the counter
counts rollover attempts, not successful renames. -/
theorem rollover_count_counts_attempts (now : Rat) (today : String)
    (renameOk : Bool) (s : SysState) (m : Metrics)
    (hm : s.handler.metrics = some m) :
    ∃ mNew, (doRollover now today renameOk s).handler.metrics = some mNew ∧
      mNew.rollover_count = m.rollover_count + 1 ∧
      (renameOk = false → fsExists s.fs s.handler.baseFilename = true →
        mNew.errors = m.errors + 1) ∧
      (renameOk = true → mNew.errors = m.errors) ∧
      (fsExists s.fs s.handler.baseFilename = false → mNew.errors = m.errors) := by
  rw [doRollover_metrics_eq]
  by_cases hc : renameOk = false ∧ fsExists s.fs s.handler.baseFilename = true
  · rw [if_pos hc, hm]
    refine ⟨_, rfl, rfl, ?_, ?_, ?_⟩
    · intro _ _; rfl
    · intro hro; rw [hc.1] at hro; cases hro
    · intro hnex; rw [hc.2] at hnex; cases hnex
  · rw [if_neg hc, hm]
    refine ⟨_, rfl, rfl, ?_, ?_, ?_⟩
    · intro hro hexx; exact absurd ⟨hro, hexx⟩ hc
    · intro _; rfl
    · intro _; rfl

/-! ## Concrete states used by witnesses and counterexamples -/

/-- A concrete rolling policy: compression on, date bucket 2026-10-12,
index 0, pattern matching nothing, empty cache. -/
def samplePolicy : TimeBasedRollingPolicy :=
  { max_history := 15, total_size_cap := 1000000, compress := true,
    pattern_match := fun _ => false, current_date := "2026-10-12",
    current_index := 0, file_cache := none, last_cleanup := 0 }

/-- A concrete triggering policy: `max_size = 1024`, `check_interval = 1`,
no checks done yet. -/
def sampleTrigger : SizeBasedTriggeringPolicy := ⟨1024, 1, 0, 0⟩

/-- Metrics with all counters at zero, as `_init_metrics` leaves them. -/
def sampleMetrics : Metrics := ⟨0, 0, 0, 0, 0, 0⟩

/-- A concrete handler over a directory holding only the active file. -/
def sampleState : SysState :=
  { handler :=
    { baseFilename := "app.log", rolling_policy := samplePolicy,
      triggering_policy := sampleTrigger, buffer := "", buffer_size := 0,
      max_buffer_size := 4, metrics := some sampleMetrics },
    fs := [⟨"app.log", "hello", 0⟩], backups := [] }

/-- C9 witness: the theorem applied to a concrete rollover whose rename
fails. -/
theorem rollover_count_counts_attempts_witness :
    ∃ mNew, (doRollover 1000 "2026-10-12" false sampleState).handler.metrics =
        some mNew ∧
      mNew.rollover_count = sampleMetrics.rollover_count + 1 ∧
      (false = false → fsExists sampleState.fs sampleState.handler.baseFilename = true →
        mNew.errors = sampleMetrics.errors + 1) ∧
      (false = true → mNew.errors = sampleMetrics.errors) ∧
      (fsExists sampleState.fs sampleState.handler.baseFilename = false →
        mNew.errors = sampleMetrics.errors) :=
  rollover_count_counts_attempts 1000 "2026-10-12" false sampleState
    sampleMetrics rfl

/-! ## Lemmas about `flush` -/

theorem flush_max_buffer_size (now : Rat) (today : String)
    (renameOk writeOk : Bool) (s : SysState) :
    (flush now today renameOk writeOk s).handler.max_buffer_size =
      s.handler.max_buffer_size := by
  simp only [flush]
  split
  · rfl
  · split
    · rfl
    · split
      · split
        · rw [doRollover_max_buffer_size]
        · rfl
      · rw [handleError_max_buffer_size]
        split
        · rw [doRollover_max_buffer_size]
        · rfl

theorem flush_writeOk_buffer_size (now : Rat) (today : String) (renameOk : Bool)
    (s : SysState)
    (helapsed : ¬ (now - s.handler.triggering_policy.last_check <
      s.handler.triggering_policy.check_interval)) :
    (flush now today renameOk true s).handler.buffer_size = 0 := by
  simp only [flush]
  split
  case isTrue h => exact h
  case isFalse h =>
    simp only [is_triggered, if_neg helapsed]
    cases hfs : Option.map (fun f => f.content.utf8ByteSize)
        (fsLookup s.fs s.handler.baseFilename) <;>
      simp [hfs]

/-! ## Lemmas about `emit` -/

theorem emit_max_buffer_size (c : EmitCall) (s : SysState) :
    (emit c s).handler.max_buffer_size = s.handler.max_buffer_size := by
  simp only [emit]
  split <;>
  · split
    · rw [flush_max_buffer_size]
    · rfl

theorem emit_step_buffer_le (c : EmitCall) (s : SysState)
    (hmsg : c.msg.utf8ByteSize ≤ s.handler.max_buffer_size)
    (hwr : c.writeOk = true)
    (helapsed : ¬ (c.now - s.handler.triggering_policy.last_check <
      s.handler.triggering_policy.check_interval)) :
    (emit c s).handler.buffer_size ≤ (emit c s).handler.max_buffer_size := by
  rw [emit_max_buffer_size]
  by_cases hov : s.handler.buffer_size + c.msg.utf8ByteSize >
      s.handler.max_buffer_size
  · have hbs : (emit c s).handler.buffer_size =
        (flush c.now c.today c.renameOk c.writeOk s).handler.buffer_size +
          c.msg.utf8ByteSize := by
      simp only [emit, if_pos hov]
      split <;> rfl
    rw [hbs, hwr, flush_writeOk_buffer_size c.now c.today c.renameOk s helapsed]
    omega
  · have hbs : (emit c s).handler.buffer_size =
        s.handler.buffer_size + c.msg.utf8ByteSize := by
      simp only [emit, if_neg hov]
      split <;> rfl
    rw [hbs]
    omega

/-- The conditions under which a flush issued from inside `emit` completes
its `try` block: the stream write succeeds, and the triggering check does
not raise (the check interval has elapsed, so `record=None` is not
dereferenced). -/
def emitFlushOk (c : EmitCall) (s : SysState) : Prop :=
  c.writeOk = true ∧
  ¬ (c.now - s.handler.triggering_policy.last_check <
      s.handler.triggering_policy.check_interval)

/-- C1 (amended): provided every record's encoded size is at most the
configured maximum buffer size and every flush issued during the sequence
completes (write succeeds and the triggering check does not raise), the
buffer byte count never exceeds the configured maximum immediately after
each `emit` returns; when appending would exceed the maximum, `emit` flushes
first.  (Without the record-size proviso the bound fails: see the
counterexample.) -/
theorem emit_buffer_bounded (calls : List EmitCall) (s₀ : SysState)
    (h0 : s₀.handler.buffer_size ≤ s₀.handler.max_buffer_size)
    (hmsg : ∀ c ∈ calls, c.msg.utf8ByteSize ≤ s₀.handler.max_buffer_size)
    (hok : ∀ i, (hi : i < calls.length) →
      emitFlushOk (calls.get ⟨i, hi⟩) (emitSeq (calls.take i) s₀)) :
    (emitSeq calls s₀).handler.buffer_size ≤
      (emitSeq calls s₀).handler.max_buffer_size := by
  induction calls generalizing s₀ with
  | nil => simpa [emitSeq] using h0
  | cons c cs ih =>
    have h00 := hok 0 (by simp)
    have hstep : (emit c s₀).handler.buffer_size ≤
        (emit c s₀).handler.max_buffer_size :=
      emit_step_buffer_le c s₀ (hmsg c (by simp)) h00.1 h00.2
    have hmax : (emit c s₀).handler.max_buffer_size =
        s₀.handler.max_buffer_size := emit_max_buffer_size c s₀
    show (emitSeq cs (emit c s₀)).handler.buffer_size ≤
      (emitSeq cs (emit c s₀)).handler.max_buffer_size
    refine ih (emit c s₀) hstep ?_ ?_
    · intro c' hc'
      rw [hmax]
      exact hmsg c' (by simp [hc'])
    · intro i hi
      exact hok (i + 1) (by simpa using Nat.succ_lt_succ hi)

/-- C1 witness: the amended theorem applied to one 2-byte record against a
4-byte buffer cap. -/
theorem emit_buffer_bounded_witness :
    (emitSeq [⟨1000, 0, "2026-10-12", true, true, "ab"⟩] sampleState).handler.buffer_size ≤
      (emitSeq [⟨1000, 0, "2026-10-12", true, true, "ab"⟩] sampleState).handler.max_buffer_size :=
  emit_buffer_bounded [⟨1000, 0, "2026-10-12", true, true, "ab"⟩] sampleState
    (by decide)
    (by
      intro c hc
      simp only [List.mem_singleton] at hc
      subst hc
      decide)
    (by
      intro i hi
      have hi0 : i = 0 := by simpa using hi
      subst hi0
      exact ⟨rfl, by simp [sampleState, sampleTrigger, emitSeq]⟩)

/-- C1 counterexample: a single record whose own encoded size (10 bytes)
exceeds the configured maximum (4 bytes) is appended after the flush, so the
buffer byte count exceeds the maximum immediately after `emit` returns. -/
theorem emit_buffer_bounded_cex :
    ¬ ((emit ⟨1000, 0, "2026-10-12", true, true, "abcdefghij"⟩
          sampleState).handler.buffer_size ≤
        (emit ⟨1000, 0, "2026-10-12", true, true, "abcdefghij"⟩
          sampleState).handler.max_buffer_size) := by
  decide

/-- C2 (amended): when the bounded queue is full, the async `emit` returns
without raising (it is a total function of the state): the record is not
enqueued (and hence never reaches the primary file — the file system is
unchanged), the error counter is incremented, and the handler's current
buffer contents — not the record — are written to a backup file. -/
theorem async_emit_full_queue (record : String) (a : AsyncState) (m : Metrics)
    (hfull : queueFull a = true)
    (hm : a.sys.handler.metrics = some m) :
    (async_emit record a).queue = a.queue ∧
    (async_emit record a).sys.fs = a.sys.fs ∧
    (async_emit record a).sys.backups = a.sys.backups ++ [a.sys.handler.buffer] ∧
    (async_emit record a).sys.handler.metrics =
      some { m with errors := m.errors + 1 } ∧
    (record ∉ a.queue → record ∉ (async_emit record a).queue) := by
  have hstep : async_emit record a = { a with sys := handleError a.sys } := by
    simp only [async_emit, if_pos hfull]
  rw [hstep]
  refine ⟨rfl, rfl, rfl, ?_, fun h => h⟩
  rw [show ({ a with sys := handleError a.sys } : AsyncState).sys.handler.metrics =
    a.sys.handler.metrics.map (fun m => { m with errors := m.errors + 1 }) from rfl, hm]
  rfl

/-- C2 witness: the theorem applied to a concrete full queue (capacity 1,
holding one record). -/
theorem async_emit_full_queue_witness :
    (async_emit "hello" ⟨sampleState, ["r0"], 1⟩).queue =
      (⟨sampleState, ["r0"], 1⟩ : AsyncState).queue ∧
    (async_emit "hello" ⟨sampleState, ["r0"], 1⟩).sys.fs = sampleState.fs ∧
    (async_emit "hello" ⟨sampleState, ["r0"], 1⟩).sys.backups =
      sampleState.backups ++ [sampleState.handler.buffer] ∧
    (async_emit "hello" ⟨sampleState, ["r0"], 1⟩).sys.handler.metrics =
      some { sampleMetrics with errors := sampleMetrics.errors + 1 } ∧
    ("hello" ∉ (⟨sampleState, ["r0"], 1⟩ : AsyncState).queue →
      "hello" ∉ (async_emit "hello" ⟨sampleState, ["r0"], 1⟩).queue) :=
  async_emit_full_queue "hello" ⟨sampleState, ["r0"], 1⟩ sampleMetrics
    (by decide) rfl

/-- C2 counterexample: the queue-full path spills the (here empty) buffer,
not the record: no backup file holds the rejected record's content. -/
theorem async_emit_full_queue_cex :
    ¬ ("hello" ∈ (async_emit "hello" ⟨sampleState, ["r0"], 1⟩).sys.backups) := by
  decide

theorem doRolloverFinish_backups (now : Rat) (s : SysState) :
    (doRolloverFinish now s).backups = s.backups := by
  simp only [doRolloverFinish]
  split <;> simp [cleanHistoryFiles_backups]

theorem doRollover_backups (now : Rat) (today : String) (renameOk : Bool)
    (s : SysState) :
    (doRollover now today renameOk s).backups =
      (if renameOk = false ∧ fsExists s.fs s.handler.baseFilename = true
        then s.backups ++ [s.handler.buffer] else s.backups) := by
  rw [doRollover, doRolloverFinish_backups, doRolloverRename_backups_fsExists]

theorem flush_write_failure_eq (now : Rat) (today : String) (renameOk : Bool)
    (s : SysState)
    (hbuf : ¬ (s.handler.buffer_size = 0))
    (helapsed : ¬ (now - s.handler.triggering_policy.last_check <
      s.handler.triggering_policy.check_interval)) :
    ∃ (tpNew : SizeBasedTriggeringPolicy),
      flush now today renameOk false s =
        handleError
          { s with handler := { s.handler with triggering_policy := tpNew } } ∨
      flush now today renameOk false s =
        handleError (doRollover now today renameOk
          { s with handler := { s.handler with triggering_policy := tpNew } }) := by
  simp only [flush, if_neg hbuf, is_triggered, if_neg helapsed]
  cases hfs : Option.map (fun f => f.content.utf8ByteSize)
      (fsLookup s.fs s.handler.baseFilename) with
  | none =>
    refine ⟨s.handler.triggering_policy, Or.inl ?_⟩
    simp
  | some sz =>
    refine ⟨{ s.handler.triggering_policy with last_size := sz, last_check := now }, ?_⟩
    by_cases htr : sz ≥ s.handler.triggering_policy.max_size
    · refine Or.inr ?_
      simp [htr]
    · refine Or.inl ?_
      simp [htr]

/-- C4 (amended): on a write failure during `flush`, the failure is never
surfaced to the caller: the buffered content is spilled to a backup file
(the last backup entry written is the buffer; a rollover whose rename also
failed may have spilled it once more before that) and the error counter is
incremented (exactly once when only the write fails) — but processing does
NOT continue with a fresh (empty) buffer: the buffer keeps its contents and
byte count after the failed flush, and is cleared only by a later successful
flush. -/
theorem flush_write_failure_spills_and_keeps_buffer (now : Rat) (today : String)
    (renameOk : Bool) (s : SysState) (m : Metrics)
    (hbuf : ¬ (s.handler.buffer_size = 0))
    (helapsed : ¬ (now - s.handler.triggering_policy.last_check <
      s.handler.triggering_policy.check_interval))
    (hm : s.handler.metrics = some m) :
    (flush now today renameOk false s).handler.buffer = s.handler.buffer ∧
    (flush now today renameOk false s).handler.buffer_size =
      s.handler.buffer_size ∧
    (∃ extra : List String,
      (flush now today renameOk false s).backups =
        s.backups ++ extra ++ [s.handler.buffer]) ∧
    (∃ mNew, (flush now today renameOk false s).handler.metrics = some mNew ∧
      m.errors + 1 ≤ mNew.errors ∧
      (renameOk = true → mNew.errors = m.errors + 1)) ∧
    (renameOk = true →
      (flush now today renameOk false s).backups =
        s.backups ++ [s.handler.buffer]) := by
  obtain ⟨tpNew, heq | heq⟩ :=
    flush_write_failure_eq now today renameOk s hbuf helapsed
  · have hm₁ : ({ s with handler :=
        { s.handler with triggering_policy := tpNew } } : SysState).handler.metrics =
        some m := hm
    rw [heq]
    refine ⟨rfl, rfl, ⟨[], by simp [handleError_backups]⟩, ?_, fun _ => rfl⟩
    rw [handleError_metrics, hm₁]
    exact ⟨{ m with errors := m.errors + 1 }, rfl, le_rfl, fun _ => rfl⟩
  · have hm₁ : ({ s with handler :=
        { s.handler with triggering_policy := tpNew } } : SysState).handler.metrics =
        some m := hm
    rw [heq]
    refine ⟨?_, ?_, ?_, ?_, ?_⟩
    · rw [handleError_buffer, doRollover_buffer]
    · rw [handleError_buffer_size, doRollover_buffer_size]
    · rw [handleError_backups, doRollover_backups, doRollover_buffer]
      by_cases hc : renameOk = false ∧
          fsExists ({ s with handler :=
            { s.handler with triggering_policy := tpNew } } : SysState).fs
          ({ s with handler :=
            { s.handler with triggering_policy := tpNew } } : SysState).handler.baseFilename = true
      · exact ⟨[s.handler.buffer], by rw [if_pos hc]⟩
      · exact ⟨[], by rw [if_neg hc]; simp⟩
    · rw [handleError_metrics, doRollover_metrics_eq, hm₁]
      by_cases hc : renameOk = false ∧
          fsExists ({ s with handler :=
            { s.handler with triggering_policy := tpNew } } : SysState).fs
          ({ s with handler :=
            { s.handler with triggering_policy := tpNew } } : SysState).handler.baseFilename = true
      · rw [if_pos hc]
        refine ⟨_, rfl, ?_, ?_⟩
        · show m.errors + 1 ≤ m.errors + 1 + 1
          omega
        · intro hro
          rw [hc.1] at hro
          cases hro
      · rw [if_neg hc]
        exact ⟨_, rfl, le_rfl, fun _ => rfl⟩
    · intro hro
      rw [handleError_backups, doRollover_backups, doRollover_buffer,
        if_neg (by simp [hro])]

/-- A concrete pre-flush state for the write-failure claim: the active file
is present on disk and the handler holds 5 buffered bytes. -/
def writeFailState : SysState :=
  ⟨{ sampleState.handler with buffer := "hello", buffer_size := 5 },
    sampleState.fs, []⟩

/-- C4 witness: the theorem applied to a concrete failing flush of a 5-byte
buffer with the active file present on disk. -/
theorem flush_write_failure_witness :
    (flush 1000 "2026-10-12" true false writeFailState).handler.buffer =
      writeFailState.handler.buffer ∧
    (flush 1000 "2026-10-12" true false writeFailState).handler.buffer_size =
      writeFailState.handler.buffer_size ∧
    (∃ extra : List String,
      (flush 1000 "2026-10-12" true false writeFailState).backups =
        writeFailState.backups ++ extra ++ [writeFailState.handler.buffer]) ∧
    (∃ mNew, (flush 1000 "2026-10-12" true false writeFailState).handler.metrics =
        some mNew ∧
      sampleMetrics.errors + 1 ≤ mNew.errors ∧
      (true = true → mNew.errors = sampleMetrics.errors + 1)) ∧
    (true = true →
      (flush 1000 "2026-10-12" true false writeFailState).backups =
        writeFailState.backups ++ [writeFailState.handler.buffer]) :=
  flush_write_failure_spills_and_keeps_buffer 1000 "2026-10-12" true
    writeFailState sampleMetrics (by decide)
    (by simp [writeFailState, sampleState, sampleTrigger]) rfl

/-- C4 counterexample: after the failing flush (active file present, write
fails) the buffer still holds its 5 bytes — processing does not continue
with a fresh (empty) buffer. -/
theorem flush_write_failure_cex :
    ¬ ((flush 1000 "2026-10-12" true false writeFailState).handler.buffer_size
      = 0) := by
  obtain ⟨tpNew, heq | heq⟩ :=
    flush_write_failure_eq 1000 "2026-10-12" true writeFailState (by decide)
      (by simp [writeFailState, sampleState, sampleTrigger])
  · rw [heq, handleError_buffer_size]
    simp [writeFailState]
  · rw [heq, handleError_buffer_size, doRollover_buffer_size]
    simp [writeFailState]

theorem natDecimal_one : natDecimal 1 = "1" := by decide

/-- C3 (code divergence, evaluated at a concrete rollover): with compression
enabled, `get_rolled_file_name` already appends `".gz"` to the rolled name,
and `doRollover` then writes the gzip output to `f"{rolled_file}.gz"` — so
the file on disk is `app.log.2026-10-12.1.gz.gz` (a double `.gz`), no file
with the single-`.gz` policy-computed name exists, and the original active
file has been removed (recreated empty on reopen). -/
theorem compressed_rollover_double_gz :
    (get_rolled_file_name "2026-10-12" "app.log" samplePolicy).1 =
      "app.log.2026-10-12.1.gz" ∧
    fsExists (doRollover 1000 "2026-10-12" true sampleState).fs
      "app.log.2026-10-12.1.gz.gz" = true ∧
    fsExists (doRollover 1000 "2026-10-12" true sampleState).fs
      "app.log.2026-10-12.1.gz" = false ∧
    (fsLookup (doRollover 1000 "2026-10-12" true sampleState).fs
      "app.log.2026-10-12.1.gz.gz").map (fun f => f.content) = some "hello" ∧
    (fsLookup (doRollover 1000 "2026-10-12" true sampleState).fs
      "app.log").map (fun f => f.content) = some "" := by
  refine ⟨?_, ?_, ?_, ?_, ?_⟩ <;>
    simp [doRollover, doRolloverRename, doRolloverFinish, cleanHistoryFiles,
      get_rolled_file_name, samplePolicy, sampleState, sampleTrigger,
      sampleMetrics, fsExists, fsLookup, fsCreate, fsRemove, fsRename,
      natDecimal_one, sortFilesByMtimeDesc, cleanWalk, handleError,
      List.mergeSort_nil, List.filter, List.find?]

end Pylogback
